import Mathlib

/-!
Verification of the polling/dedup engine of `hurr_durr` (`src/hurr_durr/watcher.py`).

The embedding is a direct translation of `watcher.py` (the most-evolved revision;
the package targets Python 2 / tornado 4.0.2, so `filter` is eager: it builds the
whole filtered list before the loop body runs).  External collaborators are
parameters:

* the md5 / base64 / hex routines of `hashlib`, `base64`, `binascii` are fields of
  a `Crypto` record (the engine only composes and compares them);
* the sink (`handler`) is a `Handler` record; `post`, `pruned`, `img` are pure
  sinks and are recorded as emitted events, while `download_img` returns a Bool
  that the engine branches on;
* the tornado event loop and HTTP client are replaced by an explicit labelled
  transition system: issued fetches and scheduled timeouts become pending tokens
  of a system state, and the environment supplies responses.
-/

/-- Bytes of an HTTP body (`response.body`), as a list of byte values. -/
abbrev Bytes := List Nat

/-- The external hashing/encoding routines used by `watcher.py`:
`md5hex data` models `md5(); m.update(data); m.hexdigest()`,
`b64decode` models `base64.b64decode`, `hexlify` models `binascii.hexlify`.
The engine never inspects their internals, only composes and compares them. -/
structure Crypto where
  md5hex : Bytes → String
  b64decode : String → Bytes
  hexlify : Bytes → String

/-- A post object of a thread detail document.  `no` is the post number
(`p['no']`); `tim` is present iff `'tim' in p` (the attachment name fragment);
`ext` and `md5` model `p['ext']` and `p['md5']` (the base64-encoded checksum). -/
structure Post where
  no : Nat
  tim : Option Nat
  ext : String
  md5 : String
deriving Repr, DecidableEq

/-- A parsed thread detail document: `loads(response.body)` with its
`'posts'` list (`thread['posts']`). -/
structure ThreadDoc where
  posts : List Post
deriving Repr, DecidableEq

/-- The sink operations the engine branches on.  `download_img tid filename`
models `handler.download_img(thread_id, filename)`. The remaining handler
operations (`post`, `pruned`, `img`) are pure sinks and appear as events. -/
structure Handler where
  download_img : Nat → String → Bool

/-- Observable actions of a `ThreadWatcher`: calls into the handler
(`post`, `pruned`, `img`, the `download_img` query with its answer) and
the effects on the loop/client (`imgFetch` = `self._client.fetch` of an image
with the captured `(filename, checksum)` closure, `schedulePoll` =
`self._loop.add_timeout(timedelta(seconds=interval), self.watch)`). -/
inductive Ev where
  | post (tid : Nat) (p : Post)
  | pruned (tid : Nat)
  | img (tid : Nat) (filename : String) (data : Bytes)
  | queryDownload (tid : Nat) (filename : String) (answer : Bool)
  | imgFetch (tid : Nat) (filename : String) (checksum : String)
  | schedulePoll (tid : Nat) (interval : Nat)
deriving Repr, DecidableEq

/-- Python `set.add` on a set represented as a duplicate-free list. -/
def setAdd (x : Nat) (s : List Nat) : List Nat :=
  if x ∈ s then s else s ++ [x]

/-- The mutable state of a `ThreadWatcher` (`ThreadWatcher.__init__`):
`posts_handled` and `downloaded_pictures` are the two sets, `last_modified`
is the cached timestamp (abstracted to a `Nat`), `working` the liveness flag.
`thread_id`, `pull_images` and `sampling_interval` are fixed at construction. -/
structure ThreadWatcher where
  thread_id : Nat
  pull_images : Bool
  sampling_interval : Nat
  downloaded_pictures : List String
  last_modified : Nat
  posts_handled : List Nat
  working : Bool
deriving Repr, DecidableEq

/-- `ThreadWatcher.__init__`: empty sets, `last_modified = datetime.now()`
(the construction instant `now`), `working = True`. -/
def initWatcher (thread_id : Nat) (pull_images : Bool) (now : Nat)
    (sampling_interval : Nat) : ThreadWatcher :=
  { thread_id := thread_id
    pull_images := pull_images
    sampling_interval := sampling_interval
    downloaded_pictures := []
    last_modified := now
    posts_handled := []
    working := true }

/-- A response to the thread detail fetch.  `code` is the HTTP status;
`lastModified` the parsed `Last-Modified` header (read only when `code = 200`);
`body` is the result of `loads(response.body)`: `none` models a body that
raises `ValueError` (unparsable). -/
structure Response where
  code : Nat
  lastModified : Nat
  body : Option ThreadDoc
deriving Repr, DecidableEq

/-- A response to an image fetch. -/
structure ImgResponse where
  code : Nat
  body : Bytes
deriving Repr, DecidableEq

/-- The eager `filter(lambda post: post['no'] not in self._posts_handled, posts)`
of `_parse_thread` (Python 2 `filter` builds the whole list up-front,
before the loop body mutates `_posts_handled`). -/
def filterNew (handled : List Nat) (posts : List Post) : List Post :=
  posts.filter (fun p => decide (p.no ∉ handled))

/-- The image-pulling tail of `_parse_thread`'s loop body: when images are
enabled and `'tim' in p`, build `filename`, and if it is not in
`_downloaded_pictures`, decode the checksum (`hexlify(b64decode(p['md5']))`),
query `download_img`, and on a positive answer issue the image fetch with the
closure capturing `(filename, checksum)`.  Mutates no watcher state. -/
def attachmentEvents (c : Crypto) (h : Handler) (w : ThreadWatcher) (p : Post) :
    List Ev :=
  if w.pull_images then
    match p.tim with
    | some t =>
      let filename := toString t ++ p.ext
      if filename ∈ w.downloaded_pictures then []
      else
        let checksum := c.hexlify (c.b64decode p.md5)
        let answer := h.download_img w.thread_id filename
        Ev.queryDownload w.thread_id filename answer ::
          (if answer then [Ev.imgFetch w.thread_id filename checksum] else [])
    | none => []
  else []

/-- One iteration of `_parse_thread`'s loop body for a post `p` that survived
the filter: `self._handler.post(...)`, then `self._posts_handled.add(p['no'])`,
then the image-pulling tail.  Only `posts_handled` changes. -/
def handlePost (c : Crypto) (h : Handler) (w : ThreadWatcher) (p : Post) :
    ThreadWatcher × List Ev :=
  ({ w with posts_handled := setAdd p.no w.posts_handled },
   Ev.post w.thread_id p :: attachmentEvents c h w p)

/-- The loop of `_parse_thread` over the (eagerly) filtered post list. -/
def deliverLoop (c : Crypto) (h : Handler) :
    ThreadWatcher → List Post → ThreadWatcher × List Ev
  | w, [] => (w, [])
  | w, p :: rest =>
    let st := handlePost c h w p
    let rec' := deliverLoop c h st.1 rest
    (rec'.1, st.2 ++ rec'.2)

/-- `ThreadWatcher._parse_thread`: filter the document's posts against
`_posts_handled` (eagerly), then run the loop body over each survivor. -/
def parse_thread (c : Crypto) (h : Handler) (w : ThreadWatcher) (doc : ThreadDoc) :
    ThreadWatcher × List Ev :=
  deliverLoop c h w (filterNew w.posts_handled doc.posts)

/-- `ThreadWatcher._handle`: on 200, store the `Last-Modified` header into
`_last_modified` (before the parse attempt), then parse the body — a
`ValueError` (`body = none`) is swallowed.  Unless the code is 404, reschedule
`self.watch` after `sampling_interval`; on 404, call `pruned` and clear
`working`. -/
def handle (c : Crypto) (h : Handler) (w : ThreadWatcher) (r : Response) :
    ThreadWatcher × List Ev :=
  let st :=
    if r.code = 200 then
      let w' := { w with last_modified := r.lastModified }
      match r.body with
      | some doc => parse_thread c h w' doc
      | none => (w', [])
    else (w, [])
  if r.code ≠ 404 then
    (st.1, st.2 ++ [Ev.schedulePoll st.1.thread_id st.1.sampling_interval])
  else
    ({ st.1 with working := false }, st.2 ++ [Ev.pruned st.1.thread_id])

/-- The closure returned by `ThreadWatcher._make_image_handler(filename, checksum)`:
on a 200 image response, hash the body and deliver it via `img` exactly when the
hex digest equals the captured checksum.  It mutates no watcher state and is not
guarded by `working`. -/
def check_image (c : Crypto) (w : ThreadWatcher) (filename checksum : String)
    (r : ImgResponse) : List Ev :=
  if r.code = 200 then
    if c.md5hex r.body = checksum then [Ev.img w.thread_id filename r.body]
    else []
  else []

example :
    parse_thread
      ⟨fun _ => "aa", fun _ => [0], fun _ => "aa"⟩ ⟨fun _ _ => true⟩
      (initWatcher 42 true 0 60) ⟨[⟨1, some 500, ".jpg", "m"⟩]⟩ =
    ({ initWatcher 42 true 0 60 with posts_handled := [1] },
     [Ev.post 42 ⟨1, some 500, ".jpg", "m"⟩,
      Ev.queryDownload 42 "500.jpg" true,
      Ev.imgFetch 42 "500.jpg" "aa"]) := by
  decide

/-! ### The labelled transition system of one `ThreadWatcher`

A scheduled timeout plus the thread fetch it triggers (`watch`) collapse into a
single pending-poll token: `_handle` is invoked once per token, with the
response chosen by the environment.  Each `imgFetch` event places a pending
`(filename, checksum)` closure, resolved later by an arbitrary image response
(`check_image` runs with the watcher state at response time). -/

/-- A pending-request pool around a `ThreadWatcher`: `pendingPoll` counts
outstanding thread polls (timeout or in-flight fetch), `pendingImgs` the
in-flight image fetches with their captured closures. -/
structure WSys where
  w : ThreadWatcher
  pendingPoll : Nat
  pendingImgs : List (String × String)
deriving Repr, DecidableEq

/-- The system right after `ChanWatcher` constructs a `ThreadWatcher` and calls
`watch()` once: one pending poll, no pending image fetches. -/
def initSys (thread_id : Nat) (pull_images : Bool) (now : Nat)
    (sampling_interval : Nat) : WSys :=
  { w := initWatcher thread_id pull_images now sampling_interval
    pendingPoll := 1
    pendingImgs := [] }

/-- A transition label: which response the environment delivered. -/
inductive WLabel where
  | poll (r : Response)
  | imgResp (filename checksum : String) (r : ImgResponse)
deriving Repr, DecidableEq

/-- The `schedulePoll` events of an event list (each adds a pending poll). -/
def schedCount (evs : List Ev) : Nat :=
  (evs.filter fun e => match e with | Ev.schedulePoll _ _ => true | _ => false).length

/-- The `(filename, checksum)` closures of the `imgFetch` events of an event
list (each places a pending image fetch). -/
def fetchesOf (evs : List Ev) : List (String × String) :=
  evs.filterMap fun e => match e with
    | Ev.imgFetch _ fn ck => some (fn, ck)
    | _ => none

/-- One transition: either a pending thread poll resolves to a response `r` and
`_handle` runs (consuming the token, adding the polls it schedules and the image
fetches it issues), or a pending image fetch resolves and its `check_image`
closure runs (image responses may arrive in any order, also after a 404). -/
inductive WStep (c : Crypto) (h : Handler) : WSys → WLabel → List Ev → WSys → Prop where
  | poll (s : WSys) (r : Response) (hp : 0 < s.pendingPoll) :
      WStep c h s (WLabel.poll r) (handle c h s.w r).2
        { w := (handle c h s.w r).1
          pendingPoll := s.pendingPoll - 1 + schedCount (handle c h s.w r).2
          pendingImgs := s.pendingImgs ++ fetchesOf (handle c h s.w r).2 }
  | imgResp (s : WSys) (fn ck : String) (r : ImgResponse)
      (hm : (fn, ck) ∈ s.pendingImgs) :
      WStep c h s (WLabel.imgResp fn ck r) (check_image c s.w fn ck r)
        { s with pendingImgs := s.pendingImgs.erase (fn, ck) }

/-- Executions of the system: a trace records each label with the events its
step emitted. -/
inductive Reaches (c : Crypto) (h : Handler) :
    WSys → List (WLabel × List Ev) → WSys → Prop where
  | refl (s : WSys) : Reaches c h s [] s
  | step {s₀ s₁ s₂ : WSys} {tr : List (WLabel × List Ev)} {lab : WLabel}
      {evs : List Ev} :
      Reaches c h s₀ tr s₁ → WStep c h s₁ lab evs s₂ →
      Reaches c h s₀ (tr ++ [(lab, evs)]) s₂

/-- All events of a trace, in order. -/
def evsOf (tr : List (WLabel × List Ev)) : List Ev :=
  (tr.map Prod.snd).flatten

/-- The posts delivered (passed to `handler.post`) in an event list, in order. -/
def postsDelivered (evs : List Ev) : List Post :=
  evs.filterMap fun e => match e with
    | Ev.post _ p => some p
    | _ => none

/-- The post numbers delivered in an event list, in order. -/
def postIds (evs : List Ev) : List Nat :=
  (postsDelivered evs).map Post.no

def isPost : Ev → Bool
  | Ev.post _ _ => true
  | _ => false

def isPruned : Ev → Bool
  | Ev.pruned _ => true
  | _ => false

def isSched : Ev → Bool
  | Ev.schedulePoll _ _ => true
  | _ => false

/-- Number of `pruned` deliveries in an event list. -/
def prunedCount (evs : List Ev) : Nat := (evs.filter isPruned).length

/-- `true` iff no `post` event occurs anywhere after a `pruned` event. -/
def noPostAfterPruned : List Ev → Bool
  | [] => true
  | e :: rest =>
    ((!isPruned e) || rest.all fun x => !isPost x) && noPostAfterPruned rest

/-- A label carrying a successfully parsed detail document with duplicate-free
post numbers (trivially true for all other labels). -/
def goodPoll : WLabel → Bool
  | WLabel.poll r =>
    if r.code = 200 then
      match r.body with
      | some doc => decide (doc.posts.map Post.no).Nodup
      | none => true
    else true
  | _ => true

/-- A trace whose successfully parsed detail documents all carry duplicate-free
post numbers — the well-formedness the upstream data model guarantees
(sub-item IDs are unique within their parent item). -/
def goodPolls (tr : List (WLabel × List Ev)) : Prop :=
  ∀ p ∈ tr, goodPoll p.1 = true

instance : DecidablePred goodPolls := fun tr =>
  inferInstanceAs (Decidable (∀ p ∈ tr, goodPoll p.1 = true))

/-- Unpacking `goodPoll` on a parsed 200 response. -/
theorem goodPoll_nodup {r : Response} {doc : ThreadDoc}
    (hg : goodPoll (WLabel.poll r) = true) (hc : r.code = 200)
    (hb : r.body = some doc) : (doc.posts.map Post.no).Nodup := by
  simp only [goodPoll, hc, hb, if_pos rfl] at hg
  exact of_decide_eq_true hg


/-! ### The board poller (`ChanWatcher`) -/

/-- A thread summary of the board index (`thread_obj['no']`). -/
structure ThreadObj where
  no : Nat
deriving Repr, DecidableEq

/-- One page of the board index (`page_obj['threads']`). -/
structure Page where
  threads : List ThreadObj
deriving Repr, DecidableEq

/-- A response to the board index fetch; `body = none` models a body on which
`loads` raises `ValueError`. -/
structure BResponse where
  code : Nat
  body : Option (List Page)
deriving Repr, DecidableEq

/-- A member of `ChanWatcher._watchers`, reduced to the two attributes the
board poller reads: identity and the `working` liveness flag. -/
structure BWatcher where
  thread_id : Nat
  working : Bool
deriving Repr, DecidableEq

/-- The mutable state of a `ChanWatcher`: the previously seen thread-ID set and
the watcher list. -/
structure ChanWatcher where
  previous_threads : List Nat
  watchers : List BWatcher
deriving Repr, DecidableEq

/-- `ChanWatcher.__init__`: empty snapshot, no watchers. -/
def initChan : ChanWatcher := { previous_threads := [], watchers := [] }

/-- Observable actions of `_handle_threads`: `spawn t` is the construction of a
`ThreadWatcher` for thread `t` followed by its initial `watch()`;
`rescheduleBoard` is `add_timeout(timedelta(seconds=interval), self._watch_threads)`. -/
inductive BEv where
  | spawn (tid : Nat)
  | rescheduleBoard
deriving Repr, DecidableEq

/-- The nested loop of `_handle_threads` that folds every page's thread numbers
into the `curr_threads` set (Python set insertion, here a duplicate-free list in
first-insertion order). -/
def collectThreads (pages : List Page) : List Nat :=
  pages.foldl (fun acc pg => pg.threads.foldl (fun a t => setAdd t.no a) acc) []

/-- `ChanWatcher._handle_threads`: first compact `_watchers` down to the
`working` ones; then on a parsable 200 body, build the current snapshot, spawn
a watcher for every ID in `current - previous`, and replace `previous` by
`current`; on any other code or a `ValueError` body, change nothing else.
Always reschedule the next board poll. -/
def handle_threads (s : ChanWatcher) (r : BResponse) : ChanWatcher × List BEv :=
  let watchers := s.watchers.filter fun w => w.working
  let st :=
    if r.code = 200 then
      match r.body with
      | some pages =>
        let curr := collectThreads pages
        let news := curr.filter fun t => decide (t ∉ s.previous_threads)
        ({ previous_threads := curr
           watchers := watchers ++ news.map fun t => ⟨t, true⟩ },
         news.map BEv.spawn)
      | none => ({ s with watchers := watchers }, [])
    else ({ s with watchers := watchers }, [])
  (st.1, st.2 ++ [BEv.rescheduleBoard])

/-! ### A sink whose `post` may raise (for the delivery/record ordering) -/

/-- A handler whose `post` may raise: `post tid p = false` models
`handler.post(thread_id, p)` raising an exception (which propagates out of
`_parse_thread`'s loop before `_posts_handled.add` runs). -/
structure ExcHandler where
  post : Nat → Post → Bool
  download_img : Nat → String → Bool

/-- The loop of `_parse_thread` under a fallible sink: each surviving post `p`
is passed to `post` first; if that call raises the loop aborts with `some p`
and `p['no']` is never added, otherwise the iteration completes exactly as
`handlePost` (add to `_posts_handled`, then the image-pulling tail). -/
def deliverPosts (c : Crypto) (hx : ExcHandler) :
    ThreadWatcher → List Post → ThreadWatcher × List Ev × Option Post
  | w, [] => (w, [], none)
  | w, p :: rest =>
    if hx.post w.thread_id p then
      let st := handlePost c ⟨hx.download_img⟩ w p
      let rec' := deliverPosts c hx st.1 rest
      (rec'.1, st.2 ++ rec'.2.1, rec'.2.2)
    else (w, [], some p)

/-! ### Event-list bookkeeping lemmas -/

theorem evsOf_append (tr₁ tr₂ : List (WLabel × List Ev)) :
    evsOf (tr₁ ++ tr₂) = evsOf tr₁ ++ evsOf tr₂ := by
  simp [evsOf]

theorem postsDelivered_append (l₁ l₂ : List Ev) :
    postsDelivered (l₁ ++ l₂) = postsDelivered l₁ ++ postsDelivered l₂ := by
  simp [postsDelivered]

theorem postIds_append (l₁ l₂ : List Ev) :
    postIds (l₁ ++ l₂) = postIds l₁ ++ postIds l₂ := by
  simp [postIds, postsDelivered_append]

theorem prunedCount_append (l₁ l₂ : List Ev) :
    prunedCount (l₁ ++ l₂) = prunedCount l₁ + prunedCount l₂ := by
  simp [prunedCount, List.filter_append]

theorem schedCount_append (l₁ l₂ : List Ev) :
    schedCount (l₁ ++ l₂) = schedCount l₁ + schedCount l₂ := by
  simp [schedCount, List.filter_append]

theorem fetchesOf_append (l₁ l₂ : List Ev) :
    fetchesOf (l₁ ++ l₂) = fetchesOf l₁ ++ fetchesOf l₂ := by
  simp [fetchesOf]

theorem prunedCount_eq_zero {l : List Ev} (h : ∀ e ∈ l, isPruned e = false) :
    prunedCount l = 0 := by
  simp only [prunedCount, List.length_eq_zero]
  exact List.filter_eq_nil_iff.mpr (fun e he => by simp [h e he])

theorem postIds_eq_nil {l : List Ev} (h : ∀ e ∈ l, isPost e = false) :
    postIds l = [] := by
  simp only [postIds, postsDelivered, List.map_eq_nil_iff]
  refine List.filterMap_eq_nil_iff.mpr (fun e he => ?_)
  have hh := h e he
  cases e <;> first | rfl | simp [isPost] at hh

/-- Every event emitted by `attachmentEvents` is a `queryDownload` or an
`imgFetch` whose filename and checksum are derived from the post's `tim`,
`ext` and decoded `md5`. -/
theorem attachmentEvents_mem {c : Crypto} {h : Handler} {w : ThreadWatcher}
    {p : Post} {e : Ev} (he : e ∈ attachmentEvents c h w p) :
    (∃ fn a, e = Ev.queryDownload w.thread_id fn a) ∨
    (∃ t, p.tim = some t ∧
      e = Ev.imgFetch w.thread_id (toString t ++ p.ext)
            (c.hexlify (c.b64decode p.md5))) := by
  simp only [attachmentEvents] at he
  split at he
  · split at he
    · rename_i t heq
      split at he
      · simp at he
      · rcases List.mem_cons.mp he with h1 | h2
        · exact Or.inl ⟨_, _, h1⟩
        · split at h2
          · rcases List.mem_singleton.mp h2 with rfl
            exact Or.inr ⟨t, heq, rfl⟩
          · simp at h2
    · simp at he
  · simp at he

theorem attachmentEvents_not_post {c : Crypto} {h : Handler} {w : ThreadWatcher}
    {p : Post} {e : Ev} (he : e ∈ attachmentEvents c h w p) : isPost e = false := by
  rcases attachmentEvents_mem he with ⟨fn, a, rfl⟩ | ⟨t, _, rfl⟩ <;> rfl

/-- `attachmentEvents` of a watcher with images disabled is empty. -/
theorem attachmentEvents_no_pull {c : Crypto} {h : Handler} {w : ThreadWatcher}
    {p : Post} (hp : w.pull_images = false) : attachmentEvents c h w p = [] := by
  unfold attachmentEvents
  rw [hp]
  simp

/-! ### `deliverLoop` lemmas -/

/-- The loop changes only `posts_handled`, adding each delivered post's number
in order. -/
theorem deliverLoop_fst (c : Crypto) (h : Handler) (w : ThreadWatcher)
    (l : List Post) :
    (deliverLoop c h w l).1 =
      { w with posts_handled := l.foldl (fun s p => setAdd p.no s) w.posts_handled } := by
  induction l generalizing w with
  | nil => rfl
  | cons p rest ih =>
    show (deliverLoop c h { w with posts_handled := setAdd p.no w.posts_handled } rest).1 = _
    rw [ih]
    rfl

theorem mem_setAdd {x y : Nat} {s : List Nat} :
    x ∈ setAdd y s ↔ x = y ∨ x ∈ s := by
  unfold setAdd
  by_cases hy : y ∈ s
  · rw [if_pos hy]
    constructor
    · exact Or.inr
    · rintro (rfl | hx)
      · exact hy
      · exact hx
  · rw [if_neg hy]
    simp [List.mem_append, or_comm]

theorem mem_foldl_setAdd {x : Nat} {l : List Post} {s : List Nat} :
    x ∈ l.foldl (fun s p => setAdd p.no s) s ↔ x ∈ s ∨ x ∈ l.map Post.no := by
  induction l generalizing s with
  | nil => simp
  | cons p rest ih =>
    simp only [List.foldl_cons, ih, mem_setAdd, List.map_cons, List.mem_cons]
    tauto

/-- The posts passed to the sink by the loop are exactly the looped-over list,
in order. -/
theorem deliverLoop_posts (c : Crypto) (h : Handler) (w : ThreadWatcher)
    (l : List Post) : postsDelivered (deliverLoop c h w l).2 = l := by
  induction l generalizing w with
  | nil => rfl
  | cons p rest ih =>
    show postsDelivered
        (Ev.post w.thread_id p :: attachmentEvents c h w p ++
          (deliverLoop c h _ rest).2) = p :: rest
    rw [List.cons_append, show postsDelivered (Ev.post w.thread_id p :: _) =
      p :: postsDelivered (attachmentEvents c h w p ++ (deliverLoop c h _ rest).2)
      from rfl]
    rw [postsDelivered_append]
    have hatt : postsDelivered (attachmentEvents c h w p) = [] := by
      simp only [postsDelivered]
      refine List.filterMap_eq_nil_iff.mpr (fun e he => ?_)
      have hh := attachmentEvents_not_post (c := c) (h := h) he
      cases e <;> first | rfl | simp [isPost] at hh
    rw [hatt, List.nil_append, ih]

/-- Classification of every event emitted by the loop: a `post` of a looped
post, a `download_img` query, or an `imgFetch` whose filename/checksum derive
from a looped post — all at the watcher's own thread ID. -/
theorem deliverLoop_ev_mem {c : Crypto} {h : Handler} {w : ThreadWatcher}
    {l : List Post} {e : Ev} (he : e ∈ (deliverLoop c h w l).2) :
    (∃ p ∈ l, e = Ev.post w.thread_id p) ∨
    (∃ fn a, e = Ev.queryDownload w.thread_id fn a) ∨
    (∃ p t, p ∈ l ∧ p.tim = some t ∧
      e = Ev.imgFetch w.thread_id (toString t ++ p.ext)
            (c.hexlify (c.b64decode p.md5))) := by
  induction l generalizing w with
  | nil => simp [deliverLoop] at he
  | cons p rest ih =>
    have he' : e ∈ (Ev.post w.thread_id p :: attachmentEvents c h w p) ++
        (deliverLoop c h (handlePost c h w p).1 rest).2 := he
    rcases List.mem_append.mp he' with h1 | h2
    · rcases List.mem_cons.mp h1 with rfl | hatt
      · exact Or.inl ⟨p, List.mem_cons_self p rest, rfl⟩
      · rcases attachmentEvents_mem hatt with ⟨fn, a, rfl⟩ | ⟨t, htim, rfl⟩
        · exact Or.inr (Or.inl ⟨fn, a, rfl⟩)
        · exact Or.inr (Or.inr ⟨p, t, List.mem_cons_self p rest, htim, rfl⟩)
    · have htid : (handlePost c h w p).1.thread_id = w.thread_id := rfl
      rcases ih h2 with ⟨q, hq, rfl⟩ | ⟨fn, a, rfl⟩ | ⟨q, t, hq, htim, rfl⟩
      · exact Or.inl ⟨q, List.mem_cons_of_mem p hq, by rw [htid]⟩
      · exact Or.inr (Or.inl ⟨fn, a, by rw [htid]⟩)
      · exact Or.inr (Or.inr ⟨q, t, List.mem_cons_of_mem p hq, htim, by rw [htid]⟩)

/-- Every looped-over post is delivered via a `post` event at the watcher's
thread ID. -/
theorem deliverLoop_post_all {c : Crypto} {h : Handler} {w : ThreadWatcher}
    {l : List Post} {p : Post} (hp : p ∈ l) :
    Ev.post w.thread_id p ∈ (deliverLoop c h w l).2 := by
  induction l generalizing w with
  | nil => simp at hp
  | cons q rest ih =>
    show _ ∈ (Ev.post w.thread_id q :: attachmentEvents c h w q) ++
        (deliverLoop c h (handlePost c h w q).1 rest).2
    rcases List.mem_cons.mp hp with rfl | hmem
    · exact List.mem_append_left _ (List.mem_cons_self _ _)
    · exact List.mem_append_right _
        (ih (w := (handlePost c h w q).1) hmem)

/-- With images disabled, the loop emits exactly the `post` events, in order. -/
theorem deliverLoop_pull_false {c : Crypto} {h : Handler} {w : ThreadWatcher}
    {l : List Post} (hp : w.pull_images = false) :
    (deliverLoop c h w l).2 = l.map (Ev.post w.thread_id) := by
  induction l generalizing w with
  | nil => rfl
  | cons p rest ih =>
    show (Ev.post w.thread_id p :: attachmentEvents c h w p) ++
        (deliverLoop c h (handlePost c h w p).1 rest).2 = _
    rw [attachmentEvents_no_pull hp, ih (w := (handlePost c h w p).1) hp]
    rfl

theorem deliverLoop_not_pruned {c : Crypto} {h : Handler} {w : ThreadWatcher}
    {l : List Post} {e : Ev} (he : e ∈ (deliverLoop c h w l).2) :
    isPruned e = false := by
  rcases deliverLoop_ev_mem he with ⟨p, _, rfl⟩ | ⟨fn, a, rfl⟩ | ⟨p, t, _, _, rfl⟩ <;> rfl

theorem deliverLoop_not_sched {c : Crypto} {h : Handler} {w : ThreadWatcher}
    {l : List Post} {e : Ev} (he : e ∈ (deliverLoop c h w l).2) :
    isSched e = false := by
  rcases deliverLoop_ev_mem he with ⟨p, _, rfl⟩ | ⟨fn, a, rfl⟩ | ⟨p, t, _, _, rfl⟩ <;> rfl

theorem deliverLoop_no_img {c : Crypto} {h : Handler} {w : ThreadWatcher}
    {l : List Post} {tid' : Nat} {fn : String} {data : Bytes}
    (he : Ev.img tid' fn data ∈ (deliverLoop c h w l).2) : False := by
  rcases deliverLoop_ev_mem he with ⟨p, _, heq⟩ | ⟨f, a, heq⟩ | ⟨p, t, _, _, heq⟩ <;>
    simp at heq

/-- Provenance of the image fetches the loop issues. -/
theorem deliverLoop_fetch_prov {c : Crypto} {h : Handler} {w : ThreadWatcher}
    {l : List Post} {fn ck : String}
    (hf : (fn, ck) ∈ fetchesOf (deliverLoop c h w l).2) :
    ∃ p t, p ∈ l ∧ p.tim = some t ∧ fn = toString t ++ p.ext ∧
      ck = c.hexlify (c.b64decode p.md5) := by
  rcases List.mem_filterMap.mp hf with ⟨e, he, heq⟩
  rcases deliverLoop_ev_mem he with ⟨p, _, rfl⟩ | ⟨f, a, rfl⟩ | ⟨p, t, hp, htim, rfl⟩ <;>
    simp at heq
  exact ⟨p, t, hp, htim, heq.1.symm, heq.2.symm⟩

/-! ### `handle` shape lemmas -/

/-- On a 200 with a parsable body: update the marker, deliver through the
parse loop, reschedule at the same cadence. -/
theorem handle_200_parsed {c : Crypto} {h : Handler} {w : ThreadWatcher}
    {r : Response} {doc : ThreadDoc} (hc : r.code = 200) (hb : r.body = some doc) :
    handle c h w r =
      ((parse_thread c h { w with last_modified := r.lastModified } doc).1,
       (parse_thread c h { w with last_modified := r.lastModified } doc).2 ++
         [Ev.schedulePoll w.thread_id w.sampling_interval]) := by
  have htid : (parse_thread c h { w with last_modified := r.lastModified } doc).1.thread_id
      = w.thread_id := by
    simp [parse_thread, deliverLoop_fst]
  have hiv : (parse_thread c h { w with last_modified := r.lastModified } doc).1.sampling_interval
      = w.sampling_interval := by
    simp [parse_thread, deliverLoop_fst]
  simp only [handle, hc, hb, reduceIte, ne_eq, reduceCtorEq, not_false_eq_true,
    Nat.reduceEqDiff]
  rw [htid, hiv]

/-- On a 200 with an unparsable body (`ValueError`): the marker is still
updated, nothing is delivered, reschedule at the same cadence. -/
theorem handle_200_malformed {c : Crypto} {h : Handler} {w : ThreadWatcher}
    {r : Response} (hc : r.code = 200) (hb : r.body = none) :
    handle c h w r =
      ({ w with last_modified := r.lastModified },
       [Ev.schedulePoll w.thread_id w.sampling_interval]) := by
  simp only [handle, hc, hb, reduceIte, ne_eq, reduceCtorEq, not_false_eq_true,
    Nat.reduceEqDiff]
  rfl

/-- Any other non-404 code (error, 304 unchanged, transport failure): the
watcher state is untouched and the poll is rescheduled at the same cadence. -/
theorem handle_other {c : Crypto} {h : Handler} {w : ThreadWatcher}
    {r : Response} (hc : r.code ≠ 200) (h4 : r.code ≠ 404) :
    handle c h w r = (w, [Ev.schedulePoll w.thread_id w.sampling_interval]) := by
  simp only [handle, if_neg hc, if_pos h4]
  rfl

/-- On a 404: `pruned` is called once and `working` is cleared; nothing else
happens and no poll is rescheduled. -/
theorem handle_404 {c : Crypto} {h : Handler} {w : ThreadWatcher}
    {r : Response} (h4 : r.code = 404) :
    handle c h w r = ({ w with working := false }, [Ev.pruned w.thread_id]) := by
  have hc : ¬ r.code = 200 := by rw [h4]; decide
  simp only [handle, if_neg hc]
  rw [if_neg (by rw [h4]; simp)]
  rfl

/-- `handle` never touches `thread_id`, `pull_images`, `sampling_interval` or
`downloaded_pictures`. -/
theorem handle_const (c : Crypto) (h : Handler) (w : ThreadWatcher) (r : Response) :
    (handle c h w r).1.thread_id = w.thread_id ∧
    (handle c h w r).1.pull_images = w.pull_images ∧
    (handle c h w r).1.sampling_interval = w.sampling_interval ∧
    (handle c h w r).1.downloaded_pictures = w.downloaded_pictures := by
  by_cases h4 : r.code = 404
  · rw [handle_404 h4]
    exact ⟨rfl, rfl, rfl, rfl⟩
  by_cases hc : r.code = 200
  · cases hb : r.body with
    | some doc =>
      rw [handle_200_parsed hc hb]
      simp [parse_thread, deliverLoop_fst]
    | none =>
      rw [handle_200_malformed hc hb]
      exact ⟨rfl, rfl, rfl, rfl⟩
  · rw [handle_other hc h4]
    exact ⟨rfl, rfl, rfl, rfl⟩

/-- Count bookkeeping for one `_handle` run: in total exactly one of
`pruned` / `schedulePoll` is emitted; `working` survives iff the code was
not 404. -/
theorem handle_split (c : Crypto) (h : Handler) (w : ThreadWatcher) (r : Response) :
    (r.code ≠ 404 ∧
      prunedCount (handle c h w r).2 = 0 ∧ schedCount (handle c h w r).2 = 1 ∧
      (handle c h w r).1.working = w.working) ∨
    (r.code = 404 ∧
      handle c h w r = ({ w with working := false }, [Ev.pruned w.thread_id])) := by
  by_cases h4 : r.code = 404
  · exact Or.inr ⟨h4, handle_404 h4⟩
  refine Or.inl ⟨h4, ?_⟩
  by_cases hc : r.code = 200
  · cases hb : r.body with
    | some doc =>
      rw [handle_200_parsed hc hb]
      have h0 : prunedCount
          (parse_thread c h { w with last_modified := r.lastModified } doc).2 = 0 :=
        prunedCount_eq_zero (fun e he => deliverLoop_not_pruned he)
      have h1 : schedCount
          (parse_thread c h { w with last_modified := r.lastModified } doc).2 = 0 := by
        simp only [schedCount, List.length_eq_zero]
        refine List.filter_eq_nil_iff.mpr (fun e he => ?_)
        have hs := deliverLoop_not_sched he
        cases e <;> simp_all [isSched]
      refine ⟨?_, ?_, ?_⟩
      · rw [prunedCount_append, h0]
        rfl
      · rw [schedCount_append, h1]
        rfl
      · simp [parse_thread, deliverLoop_fst]
    | none =>
      rw [handle_200_malformed hc hb]
      exact ⟨rfl, rfl, rfl⟩
  · rw [handle_other hc h4]
    exact ⟨rfl, rfl, rfl⟩

/-! ### `check_image` lemmas -/

/-- The image closure delivers at most the single `img` event, and only when
the digest of the fetched bytes equals the captured checksum on a 200. -/
theorem check_image_mem {c : Crypto} {w : ThreadWatcher} {fn ck : String}
    {r : ImgResponse} {e : Ev} (he : e ∈ check_image c w fn ck r) :
    e = Ev.img w.thread_id fn r.body ∧ c.md5hex r.body = ck ∧ r.code = 200 := by
  unfold check_image at he
  split at he
  · split at he
    · rename_i hcode hdig
      exact ⟨List.mem_singleton.mp he, hdig, hcode⟩
    · simp at he
  · simp at he

/-- On a digest mismatch nothing at all is delivered. -/
theorem check_image_mismatch {c : Crypto} {w : ThreadWatcher} {fn ck : String}
    {r : ImgResponse} (hdg : c.md5hex r.body ≠ ck) :
    check_image c w fn ck r = [] := by
  unfold check_image
  split
  · simp [hdg]
  · rfl

/-- On a transport-level failure (non-200) nothing at all is delivered. -/
theorem check_image_error {c : Crypto} {w : ThreadWatcher} {fn ck : String}
    {r : ImgResponse} (hc : r.code ≠ 200) :
    check_image c w fn ck r = [] := by
  unfold check_image
  exact if_neg hc

/-! ### Trace invariants -/

theorem evsOf_single (lab : WLabel) (evs : List Ev) :
    evsOf [(lab, evs)] = evs := by
  simp [evsOf]

/-- Execution-wide bookkeeping of a single watcher system: the constructor
arguments are never overwritten, `downloaded_pictures` stays empty (nothing in
`watcher.py` ever adds to it), at every instant `pendingPoll` plus the number of
`pruned` deliveries is exactly one, and `working` is cleared exactly by the
`pruned` transition. -/
structure CoreInv (tid : Nat) (pull : Bool) (iv : Nat)
    (tr : List (WLabel × List Ev)) (s : WSys) : Prop where
  tid_eq : s.w.thread_id = tid
  pull_eq : s.w.pull_images = pull
  iv_eq : s.w.sampling_interval = iv
  dl_eq : s.w.downloaded_pictures = []
  pend : s.pendingPoll + prunedCount (evsOf tr) = 1
  work : s.w.working = true ↔ prunedCount (evsOf tr) = 0

theorem coreInv_step {c : Crypto} {h : Handler} {tid : Nat} {pull : Bool}
    {iv : Nat} {tr : List (WLabel × List Ev)} {s₁ s₂ : WSys} {lab : WLabel}
    {evs : List Ev} (inv : CoreInv tid pull iv tr s₁)
    (hst : WStep c h s₁ lab evs s₂) :
    CoreInv tid pull iv (tr ++ [(lab, evs)]) s₂ := by
  obtain ⟨htid, hpull, hiv, hdl, hpend, hwork⟩ := inv
  cases hst with
  | poll r hp =>
    obtain ⟨ht, hpu, hi, hd⟩ := handle_const c h s₁.w r
    have hpend0 : prunedCount (evsOf tr) = 0 := by omega
    rcases handle_split c h s₁.w r with ⟨h4, hpr, hsc, hwk⟩ | ⟨h4, heq⟩
    · refine ⟨?_, ?_, ?_, ?_, ?_, ?_⟩
      · show (handle c h s₁.w r).1.thread_id = tid
        rw [ht, htid]
      · show (handle c h s₁.w r).1.pull_images = pull
        rw [hpu, hpull]
      · show (handle c h s₁.w r).1.sampling_interval = iv
        rw [hi, hiv]
      · show (handle c h s₁.w r).1.downloaded_pictures = []
        rw [hd, hdl]
      · show s₁.pendingPoll - 1 + schedCount (handle c h s₁.w r).2 +
          prunedCount (evsOf (tr ++ [(WLabel.poll r, (handle c h s₁.w r).2)])) = 1
        rw [evsOf_append, prunedCount_append, evsOf_single]
        omega
      · show (handle c h s₁.w r).1.working = true ↔ _
        rw [hwk, evsOf_append, prunedCount_append, evsOf_single, hpr, hpend0]
        exact ⟨fun _ => rfl, fun _ => hwork.mpr hpend0⟩
    · refine ⟨?_, ?_, ?_, ?_, ?_, ?_⟩
      · show (handle c h s₁.w r).1.thread_id = tid
        rw [ht, htid]
      · show (handle c h s₁.w r).1.pull_images = pull
        rw [hpu, hpull]
      · show (handle c h s₁.w r).1.sampling_interval = iv
        rw [hi, hiv]
      · show (handle c h s₁.w r).1.downloaded_pictures = []
        rw [hd, hdl]
      · show s₁.pendingPoll - 1 + schedCount (handle c h s₁.w r).2 +
          prunedCount (evsOf (tr ++ [(WLabel.poll r, (handle c h s₁.w r).2)])) = 1
        rw [evsOf_append, prunedCount_append, evsOf_single, heq]
        have h1 : prunedCount [Ev.pruned s₁.w.thread_id] = 1 := rfl
        have h2 : schedCount [Ev.pruned s₁.w.thread_id] = 0 := rfl
        rw [h1, h2]
        omega
      · show (handle c h s₁.w r).1.working = true ↔ _
        rw [evsOf_append, prunedCount_append, evsOf_single, heq]
        have h1 : prunedCount [Ev.pruned s₁.w.thread_id] = 1 := rfl
        rw [h1]
        simp
  | imgResp fn ck r hm =>
    have hck : prunedCount (check_image c s₁.w fn ck r) = 0 :=
      prunedCount_eq_zero (fun e he => by
        obtain ⟨rfl, _, _⟩ := check_image_mem he
        rfl)
    refine ⟨htid, hpull, hiv, hdl, ?_, ?_⟩
    · show s₁.pendingPoll + _ = 1
      rw [evsOf_append, prunedCount_append, evsOf_single]
      omega
    · show s₁.w.working = true ↔ _
      rw [evsOf_append, prunedCount_append, evsOf_single, hck]
      simpa using hwork

theorem reach_core {c : Crypto} {h : Handler} {tid : Nat} {pull : Bool}
    {lm iv : Nat} {tr : List (WLabel × List Ev)} {s : WSys}
    (htr : Reaches c h (initSys tid pull lm iv) tr s) :
    CoreInv tid pull iv tr s := by
  induction htr with
  | refl =>
    exact ⟨rfl, rfl, rfl, rfl, rfl, by simp [initSys, initWatcher, evsOf, prunedCount]⟩
  | step htr' hst ih => exact coreInv_step ih hst

theorem prunedCount_cons_zero {e : Ev} {l : List Ev}
    (h : prunedCount (e :: l) = 0) : isPruned e = false ∧ prunedCount l = 0 := by
  by_cases hp : isPruned e
  · exfalso
    simp [prunedCount, List.filter, hp] at h
  · refine ⟨by simp [hp], ?_⟩
    simpa [prunedCount, List.filter, hp] using h

theorem npap_of_no_pruned {l : List Ev} (h : prunedCount l = 0) :
    noPostAfterPruned l = true := by
  induction l with
  | nil => rfl
  | cons e rest ih =>
    obtain ⟨he, hrest⟩ := prunedCount_cons_zero h
    simp [noPostAfterPruned, he, ih hrest]

theorem npap_append_left {l₁ l₂ : List Ev} (h1 : prunedCount l₁ = 0)
    (h2 : noPostAfterPruned l₂ = true) :
    noPostAfterPruned (l₁ ++ l₂) = true := by
  induction l₁ with
  | nil => simpa using h2
  | cons e rest ih =>
    obtain ⟨he, hrest⟩ := prunedCount_cons_zero h1
    simp only [List.cons_append, noPostAfterPruned, he, Bool.not_false,
      Bool.true_or, Bool.true_and]
    exact ih hrest

theorem npap_of_no_post {l : List Ev} (h : ∀ e ∈ l, isPost e = false) :
    noPostAfterPruned l = true := by
  induction l with
  | nil => rfl
  | cons e rest ih =>
    simp only [noPostAfterPruned, Bool.and_eq_true, Bool.or_eq_true]
    refine ⟨Or.inr ?_, ih (fun x hx => h x (List.mem_cons_of_mem _ hx))⟩
    rw [List.all_eq_true]
    intro x hx
    simp [h x (List.mem_cons_of_mem _ hx)]

theorem npap_append_nopost {l₁ l₂ : List Ev} (h1 : noPostAfterPruned l₁ = true)
    (h2 : ∀ e ∈ l₂, isPost e = false) :
    noPostAfterPruned (l₁ ++ l₂) = true := by
  induction l₁ with
  | nil =>
    simp only [List.nil_append]
    exact npap_of_no_post h2
  | cons e rest ih =>
    simp only [noPostAfterPruned, Bool.and_eq_true, Bool.or_eq_true] at h1 ⊢
    obtain ⟨hhead, htail⟩ := h1
    constructor
    · rcases hhead with hnp | hall
      · exact Or.inl hnp
      · refine Or.inr ?_
        rw [List.all_eq_true] at hall ⊢
        intro x hx
        have hx2 : x ∈ rest ++ l₂ := hx
        rcases List.mem_append.mp hx2 with hx1 | hx1
        · exact hall x hx1
        · simp [h2 x hx1]
    · exact ih htail

theorem npap_nopost_strong {l₁ l₂ : List Ev} (h1 : noPostAfterPruned l₁ = true)
    (hcase : prunedCount l₁ = 0 ∧ noPostAfterPruned l₂ = true ∨
      (∀ e ∈ l₂, isPost e = false)) :
    noPostAfterPruned (l₁ ++ l₂) = true := by
  rcases hcase with ⟨ha, hb⟩ | hb
  · exact npap_append_left ha hb
  · exact npap_append_nopost h1 hb

/-- In every execution no `post` delivery ever follows a `pruned` delivery. -/
theorem noPost_step {c : Crypto} {h : Handler} {tid : Nat} {pull : Bool}
    {iv : Nat} {tr : List (WLabel × List Ev)} {s₁ s₂ : WSys} {lab : WLabel}
    {evs : List Ev} (hcore : CoreInv tid pull iv tr s₁)
    (hnpp : noPostAfterPruned (evsOf tr) = true)
    (hst : WStep c h s₁ lab evs s₂) :
    noPostAfterPruned (evsOf (tr ++ [(lab, evs)])) = true := by
  rw [evsOf_append, evsOf_single]
  cases hst with
  | poll r hp =>
    have hpend0 : prunedCount (evsOf tr) = 0 := by
      have := hcore.pend
      omega
    refine npap_nopost_strong hnpp (Or.inl ⟨hpend0, ?_⟩)
    rcases handle_split c h s₁.w r with ⟨_, hpr, _, _⟩ | ⟨_, heq⟩
    · exact npap_of_no_pruned hpr
    · rw [heq]
      rfl
  | imgResp fn ck r hm =>
    refine npap_nopost_strong hnpp (Or.inr (fun e he => ?_))
    obtain ⟨rfl, _, _⟩ := check_image_mem he
    rfl

theorem reach_noPost {c : Crypto} {h : Handler} {tid : Nat} {pull : Bool}
    {lm iv : Nat} {tr : List (WLabel × List Ev)} {s : WSys}
    (htr : Reaches c h (initSys tid pull lm iv) tr s) :
    noPostAfterPruned (evsOf tr) = true := by
  induction htr with
  | refl => rfl
  | step htr' hst ih => exact noPost_step (reach_core htr') ih hst

/-- `_handle` itself never emits an `img` event (those come only from the image
response closures). -/
theorem handle_no_img {c : Crypto} {h : Handler} {w : ThreadWatcher}
    {r : Response} {tid' : Nat} {fn : String} {data : Bytes}
    (he : Ev.img tid' fn data ∈ (handle c h w r).2) : False := by
  by_cases h4 : r.code = 404
  · rw [handle_404 h4] at he
    simp at he
  by_cases hc : r.code = 200
  · cases hb : r.body with
    | some doc =>
      rw [handle_200_parsed hc hb] at he
      rcases List.mem_append.mp he with h1 | h2
      · exact deliverLoop_no_img h1
      · simp at h2
    | none =>
      rw [handle_200_malformed hc hb] at he
      simp at he
  · rw [handle_other hc h4] at he
    simp at he

/-- Provenance of every image fetch issued by one `_handle` run: it stems from
a post that the same run delivered, with the filename built from the post's
`tim`/`ext` and the checksum decoded from the post's `md5`. -/
theorem handle_fetch_prov {c : Crypto} {h : Handler} {w : ThreadWatcher}
    {r : Response} {fn ck : String}
    (hf : (fn, ck) ∈ fetchesOf (handle c h w r).2) :
    ∃ p t, p.tim = some t ∧ fn = toString t ++ p.ext ∧
      ck = c.hexlify (c.b64decode p.md5) ∧
      Ev.post w.thread_id p ∈ (handle c h w r).2 := by
  by_cases h4 : r.code = 404
  · rw [handle_404 h4] at hf
    simp [fetchesOf] at hf
  by_cases hc : r.code = 200
  · cases hb : r.body with
    | some doc =>
      rw [handle_200_parsed hc hb] at hf ⊢
      rw [fetchesOf_append] at hf
      have h2 : fetchesOf [Ev.schedulePoll w.thread_id w.sampling_interval] = [] := rfl
      rw [h2, List.append_nil] at hf
      obtain ⟨p, t, hp, htim, hfn, hck⟩ := deliverLoop_fetch_prov hf
      refine ⟨p, t, htim, hfn, hck, List.mem_append_left _ ?_⟩
      exact deliverLoop_post_all hp
    | none =>
      rw [handle_200_malformed hc hb] at hf
      simp [fetchesOf] at hf
  · rw [handle_other hc h4] at hf
    simp [fetchesOf] at hf

/-- Provenance invariant of image deliveries: every pending image fetch, and
every delivered `img` event, stems from an already delivered post of this
watcher, and a delivered `img` carries bytes whose digest equals the checksum
decoded from that post's `md5` field. -/
structure ImgInv (c : Crypto) (tid : Nat) (tr : List (WLabel × List Ev))
    (s : WSys) : Prop where
  pend : ∀ fc ∈ s.pendingImgs, ∃ p t, Ev.post tid p ∈ evsOf tr ∧
    p.tim = some t ∧ fc.1 = toString t ++ p.ext ∧
    fc.2 = c.hexlify (c.b64decode p.md5)
  dones : ∀ tid' fn data, Ev.img tid' fn data ∈ evsOf tr → tid' = tid ∧
    ∃ p t, Ev.post tid p ∈ evsOf tr ∧ p.tim = some t ∧
      fn = toString t ++ p.ext ∧ c.md5hex data = c.hexlify (c.b64decode p.md5)

theorem imgInv_step {c : Crypto} {h : Handler} {tid : Nat} {pull : Bool}
    {iv : Nat} {tr : List (WLabel × List Ev)} {s₁ s₂ : WSys} {lab : WLabel}
    {evs : List Ev} (hcore : CoreInv tid pull iv tr s₁)
    (hinv : ImgInv c tid tr s₁) (hst : WStep c h s₁ lab evs s₂) :
    ImgInv c tid (tr ++ [(lab, evs)]) s₂ := by
  cases hst with
  | poll r hp =>
    refine ⟨?_, ?_⟩
    · intro fc hfc
      rcases List.mem_append.mp hfc with h1 | h2
      · obtain ⟨p, t, hpost, htim, hfn, hck⟩ := hinv.pend fc h1
        exact ⟨p, t, by rw [evsOf_append]; exact List.mem_append_left _ hpost,
          htim, hfn, hck⟩
      · obtain ⟨p, t, htim, hfn, hck, hpost⟩ := handle_fetch_prov h2
        refine ⟨p, t, ?_, htim, hfn, hck⟩
        rw [evsOf_append, evsOf_single]
        rw [hcore.tid_eq] at hpost
        exact List.mem_append_right _ hpost
    · intro tid' fn data himg
      rw [evsOf_append, evsOf_single] at himg
      rcases List.mem_append.mp himg with h1 | h2
      · obtain ⟨rfl, p, t, hpost, htim, hfn, hdig⟩ := hinv.dones tid' fn data h1
        exact ⟨rfl, p, t, by rw [evsOf_append]; exact List.mem_append_left _ hpost,
          htim, hfn, hdig⟩
      · exact absurd h2 (fun hh => handle_no_img hh)
  | imgResp fn ck r hm =>
    refine ⟨?_, ?_⟩
    · intro fc hfc
      have hfc' : fc ∈ s₁.pendingImgs := List.erase_subset _ _ hfc
      obtain ⟨p, t, hpost, htim, hfn, hck⟩ := hinv.pend fc hfc'
      exact ⟨p, t, by rw [evsOf_append]; exact List.mem_append_left _ hpost,
        htim, hfn, hck⟩
    · intro tid' fn' data himg
      rw [evsOf_append, evsOf_single] at himg
      rcases List.mem_append.mp himg with h1 | h2
      · obtain ⟨rfl, p, t, hpost, htim, hfn, hdig⟩ := hinv.dones tid' fn' data h1
        exact ⟨rfl, p, t, by rw [evsOf_append]; exact List.mem_append_left _ hpost,
          htim, hfn, hdig⟩
      · obtain ⟨heq, hdig, hcode⟩ := check_image_mem h2
        injection heq with e1 e2 e3
        obtain ⟨p, t, hpost, htim, hfn, hck⟩ := hinv.pend (fn, ck) hm
        refine ⟨e1.trans hcore.tid_eq, p, t, ?_, htim, e2.trans hfn, ?_⟩
        · rw [evsOf_append]
          exact List.mem_append_left _ hpost
        · rw [e3]
          exact hdig.trans hck

theorem reach_imgProv {c : Crypto} {h : Handler} {tid : Nat} {pull : Bool}
    {lm iv : Nat} {tr : List (WLabel × List Ev)} {s : WSys}
    (htr : Reaches c h (initSys tid pull lm iv) tr s) :
    ImgInv c tid tr s := by
  induction htr with
  | refl => exact ⟨fun fc hfc => absurd hfc (by simp [initSys]), fun tid' fn data hh =>
      absurd hh (by simp [evsOf])⟩
  | step htr' hst ih => exact imgInv_step (reach_core htr') ih hst

/-- With images disabled, `_handle` emits only `post`, `pruned` and
`schedulePoll` events and issues no image fetch. -/
theorem handle_no_pull {c : Crypto} {h : Handler} {w : ThreadWatcher}
    {r : Response} (hpull : w.pull_images = false) :
    fetchesOf (handle c h w r).2 = [] ∧
    ∀ e ∈ (handle c h w r).2,
      isPost e = true ∨ isPruned e = true ∨ isSched e = true := by
  by_cases h4 : r.code = 404
  · rw [handle_404 h4]
    exact ⟨rfl, fun e he => by
      rcases List.mem_singleton.mp he with rfl
      exact Or.inr (Or.inl rfl)⟩
  by_cases hc : r.code = 200
  · cases hb : r.body with
    | some doc =>
      rw [handle_200_parsed hc hb]
      have hev : (parse_thread c h { w with last_modified := r.lastModified } doc).2 =
          (filterNew w.posts_handled doc.posts).map
            (Ev.post w.thread_id) := by
        exact deliverLoop_pull_false hpull
      rw [hev]
      constructor
      · rw [fetchesOf_append]
        have h1 : fetchesOf ((filterNew w.posts_handled doc.posts).map
            (Ev.post w.thread_id)) = [] := by
          simp only [fetchesOf]
          refine List.filterMap_eq_nil_iff.mpr (fun e he => ?_)
          rcases List.mem_map.mp he with ⟨p, _, rfl⟩
          rfl
        rw [h1]
        rfl
      · intro e he
        rcases List.mem_append.mp he with h1 | h2
        · rcases List.mem_map.mp h1 with ⟨p, _, rfl⟩
          exact Or.inl rfl
        · rcases List.mem_singleton.mp h2 with rfl
          exact Or.inr (Or.inr rfl)
    | none =>
      rw [handle_200_malformed hc hb]
      exact ⟨rfl, fun e he => by
        rcases List.mem_singleton.mp he with rfl
        exact Or.inr (Or.inr rfl)⟩
  · rw [handle_other hc h4]
    exact ⟨rfl, fun e he => by
      rcases List.mem_singleton.mp he with rfl
      exact Or.inr (Or.inr rfl)⟩

theorem noImgs_step {c : Crypto} {h : Handler} {tid iv : Nat}
    {tr : List (WLabel × List Ev)} {s₁ s₂ : WSys} {lab : WLabel} {evs : List Ev}
    (hcore : CoreInv tid false iv tr s₁)
    (hinv : s₁.pendingImgs = [] ∧
      ∀ e ∈ evsOf tr, isPost e = true ∨ isPruned e = true ∨ isSched e = true)
    (hst : WStep c h s₁ lab evs s₂) :
    s₂.pendingImgs = [] ∧
      ∀ e ∈ evsOf (tr ++ [(lab, evs)]),
        isPost e = true ∨ isPruned e = true ∨ isSched e = true := by
  cases hst with
  | poll r hp =>
    obtain ⟨hfe, hcl⟩ := handle_no_pull (c := c) (h := h) (r := r) hcore.pull_eq
    constructor
    · show s₁.pendingImgs ++ fetchesOf (handle c h s₁.w r).2 = []
      rw [hinv.1, hfe]
      rfl
    · intro e he
      rw [evsOf_append, evsOf_single] at he
      rcases List.mem_append.mp he with h1 | h2
      · exact hinv.2 e h1
      · exact hcl e h2
  | imgResp fn ck r hm =>
    rw [hinv.1] at hm
    simp at hm

/-- With images disabled at construction, no reachable execution ever places a
pending image fetch, and every delivered event is a `post`, `pruned` or
`schedulePoll` — in particular `download_img` and `img` are never invoked. -/
theorem reach_noImgs {c : Crypto} {h : Handler} {tid : Nat}
    {lm iv : Nat} {tr : List (WLabel × List Ev)} {s : WSys}
    (htr : Reaches c h (initSys tid false lm iv) tr s) :
    s.pendingImgs = [] ∧
      ∀ e ∈ evsOf tr, isPost e = true ∨ isPruned e = true ∨ isSched e = true := by
  induction htr with
  | refl => exact ⟨rfl, fun e he => absurd he (by simp [evsOf])⟩
  | step htr' hst ih => exact noImgs_step (reach_core htr') ih hst

/-! ### The delivered-posts invariant -/

theorem mem_filterNew {handled : List Nat} {posts : List Post} {p : Post}
    (hp : p ∈ filterNew handled posts) : p ∈ posts ∧ p.no ∉ handled := by
  have := List.mem_filter.mp hp
  exact ⟨this.1, of_decide_eq_true this.2⟩

theorem filterNew_ids_nodup {handled : List Nat} {posts : List Post}
    (hnd : (posts.map Post.no).Nodup) :
    ((filterNew handled posts).map Post.no).Nodup :=
  hnd.sublist (List.Sublist.map Post.no (List.filter_sublist posts))

/-- The posts one `_handle` run passes to the sink: exactly the document's
posts not yet in `_posts_handled`, in document order (empty unless the
response is a parsable 200). -/
theorem handle_posts_delivered {c : Crypto} {h : Handler} {w : ThreadWatcher}
    {r : Response} {doc : ThreadDoc} (hc : r.code = 200) (hb : r.body = some doc) :
    postsDelivered (handle c h w r).2 = filterNew w.posts_handled doc.posts := by
  rw [handle_200_parsed hc hb, postsDelivered_append]
  have h1 : postsDelivered [Ev.schedulePoll w.thread_id w.sampling_interval] = [] := rfl
  rw [h1, List.append_nil]
  exact deliverLoop_posts c h _ _

/-- `_posts_handled` after one `_handle` run: every number previously present
or newly delivered is present. -/
theorem handle_posts_handled {c : Crypto} {h : Handler} {w : ThreadWatcher}
    {r : Response} {x : Nat} :
    (x ∈ (handle c h w r).1.posts_handled ↔
      x ∈ w.posts_handled ∨ x ∈ postIds (handle c h w r).2) := by
  by_cases h4 : r.code = 404
  · rw [handle_404 h4]
    have h1 : postIds [Ev.pruned w.thread_id] = [] := rfl
    rw [h1]
    simp
  by_cases hc : r.code = 200
  · cases hb : r.body with
    | some doc =>
      have hpd := handle_posts_delivered (c := c) (h := h) (w := w) hc hb
      rw [handle_200_parsed hc hb]
      have hfst : (parse_thread c h { w with last_modified := r.lastModified } doc).1.posts_handled =
          (filterNew w.posts_handled doc.posts).foldl
            (fun s p => setAdd p.no s) w.posts_handled := by
        rw [parse_thread, deliverLoop_fst]
      rw [hfst, mem_foldl_setAdd]
      have : postIds ((parse_thread c h { w with last_modified := r.lastModified } doc).2 ++
          [Ev.schedulePoll w.thread_id w.sampling_interval]) =
          (filterNew w.posts_handled doc.posts).map Post.no := by
        have := handle_posts_delivered (c := c) (h := h) (w := w) hc hb
        rw [handle_200_parsed hc hb] at this
        rw [postIds, this]
      rw [this]
    | none =>
      rw [handle_200_malformed hc hb]
      have h1 : postIds [Ev.schedulePoll w.thread_id w.sampling_interval] = [] := rfl
      rw [h1]
      simp
  · rw [handle_other hc h4]
    have h1 : postIds [Ev.schedulePoll w.thread_id w.sampling_interval] = [] := rfl
    rw [h1]
    simp

theorem posts_step {c : Crypto} {h : Handler}
    {tr : List (WLabel × List Ev)} {s₁ s₂ : WSys} {lab : WLabel} {evs : List Ev}
    (hsub : ∀ x ∈ postIds (evsOf tr), x ∈ s₁.w.posts_handled)
    (hnd : (postIds (evsOf tr)).Nodup)
    (hgood : goodPoll lab = true)
    (hst : WStep c h s₁ lab evs s₂) :
    (∀ x ∈ postIds (evsOf (tr ++ [(lab, evs)])), x ∈ s₂.w.posts_handled) ∧
      (postIds (evsOf (tr ++ [(lab, evs)]))).Nodup := by
  cases hst with
  | poll r hp =>
    rw [evsOf_append, evsOf_single, postIds_append]
    by_cases hc : r.code = 200
    · cases hb : r.body with
      | some doc =>
        have hpids : postIds (handle c h s₁.w r).2 =
            (filterNew s₁.w.posts_handled doc.posts).map Post.no := by
          rw [postIds, handle_posts_delivered hc hb]
        constructor
        · intro x hx
          show x ∈ (handle c h s₁.w r).1.posts_handled
          rw [handle_posts_handled]
          rcases List.mem_append.mp hx with h1 | h2
          · exact Or.inl (hsub x h1)
          · exact Or.inr h2
        · have hnew : (postIds (handle c h s₁.w r).2).Nodup := by
            rw [hpids]
            exact filterNew_ids_nodup (goodPoll_nodup hgood hc hb)
          refine List.Nodup.append hnd hnew ?_
          intro x hx1 hx2
          rw [hpids] at hx2
          rcases List.mem_map.mp hx2 with ⟨p, hpmem, rfl⟩
          exact (mem_filterNew hpmem).2 (hsub p.no hx1)
      | none =>
        rw [handle_200_malformed hc hb]
        have h1 : postIds [Ev.schedulePoll s₁.w.thread_id s₁.w.sampling_interval] = [] := rfl
        rw [h1, List.append_nil]
        refine ⟨fun x hx => ?_, hnd⟩
        show x ∈ ({ s₁.w with last_modified := r.lastModified } : ThreadWatcher).posts_handled
        exact hsub x hx
    · by_cases h4 : r.code = 404
      · rw [handle_404 h4]
        have h1 : postIds [Ev.pruned s₁.w.thread_id] = [] := rfl
        rw [h1, List.append_nil]
        exact ⟨fun x hx => hsub x hx, hnd⟩
      · rw [handle_other hc h4]
        have h1 : postIds [Ev.schedulePoll s₁.w.thread_id s₁.w.sampling_interval] = [] := rfl
        rw [h1, List.append_nil]
        exact ⟨fun x hx => hsub x hx, hnd⟩
  | imgResp fn ck r hm =>
    rw [evsOf_append, evsOf_single, postIds_append]
    have h1 : postIds (check_image c s₁.w fn ck r) = [] := by
      refine postIds_eq_nil (fun e he => ?_)
      obtain ⟨rfl, _, _⟩ := check_image_mem he
      rfl
    rw [h1, List.append_nil]
    exact ⟨fun x hx => hsub x hx, hnd⟩

/-- Across every well-formed execution the delivered post numbers are pairwise
distinct and all recorded in `_posts_handled`. -/
theorem reach_posts {c : Crypto} {h : Handler} {s₀ : WSys}
    {tr : List (WLabel × List Ev)} {s : WSys}
    (htr : Reaches c h s₀ tr s) (hg : goodPolls tr) :
    (∀ x ∈ postIds (evsOf tr), x ∈ s.w.posts_handled) ∧
      (postIds (evsOf tr)).Nodup := by
  induction htr with
  | refl => exact ⟨fun x hx => absurd hx (by simp [evsOf, postIds, postsDelivered]), by
      simp [evsOf, postIds, postsDelivered]⟩
  | step htr' hst ih =>
    rename_i lab evs
    have hg' : goodPolls _ := fun p hp => hg p (List.mem_append_left _ hp)
    have hgoodlab : goodPoll lab = true :=
      hg (lab, evs) (List.mem_append_right _ (List.mem_singleton.mpr rfl))
    obtain ⟨hsub, hnd⟩ := ih hg'
    exact posts_step hsub hnd hgoodlab hst

/-! ### Aborted delivery under a raising sink -/

/-- If every post of `pre` is accepted and the sink raises at `p`, the loop
aborts at `p`: exactly the numbers of `pre` are added to `_posts_handled`
(each added after its own `post` call returned), and `p`'s number is not. -/
theorem deliverPosts_abort {c : Crypto} {hx : ExcHandler} {w : ThreadWatcher}
    {pre suf : List Post} {p : Post}
    (hpre : ∀ q ∈ pre, hx.post w.thread_id q = true)
    (hp : hx.post w.thread_id p = false) :
    (deliverPosts c hx w (pre ++ p :: suf)).2.2 = some p ∧
    (deliverPosts c hx w (pre ++ p :: suf)).1.posts_handled =
      pre.foldl (fun s q => setAdd q.no s) w.posts_handled := by
  induction pre generalizing w with
  | nil =>
    simp only [List.nil_append, List.foldl_nil]
    have hunf : deliverPosts c hx w (p :: suf) = (w, [], some p) := by
      show (if hx.post w.thread_id p = true then _ else (w, [], some p) :
        ThreadWatcher × List Ev × Option Post) = _
      rw [if_neg (by simp [hp])]
    rw [hunf]
    exact ⟨rfl, rfl⟩
  | cons q pre' ih =>
    have hq : hx.post w.thread_id q = true := hpre q (List.mem_cons_self q pre')
    have hpre' : ∀ x ∈ pre', hx.post
        (handlePost c ⟨hx.download_img⟩ w q).1.thread_id x = true :=
      fun x hx' => hpre x (List.mem_cons_of_mem q hx')
    have hp' : hx.post (handlePost c ⟨hx.download_img⟩ w q).1.thread_id p = false := hp
    have goal₁ : deliverPosts c hx w ((q :: pre') ++ p :: suf) =
        ((deliverPosts c hx (handlePost c ⟨hx.download_img⟩ w q).1 (pre' ++ p :: suf)).1,
         (handlePost c ⟨hx.download_img⟩ w q).2 ++
           (deliverPosts c hx (handlePost c ⟨hx.download_img⟩ w q).1 (pre' ++ p :: suf)).2.1,
         (deliverPosts c hx (handlePost c ⟨hx.download_img⟩ w q).1 (pre' ++ p :: suf)).2.2) := by
      show (if hx.post w.thread_id q = true then _ else (w, [], some q)) = _
      rw [if_pos hq]
      rfl
    obtain ⟨h1, h2⟩ := ih (w := (handlePost c ⟨hx.download_img⟩ w q).1) hpre' hp'
    rw [goal₁]
    exact ⟨h1, h2⟩

/-! ### Concrete instances used in scenarios -/

/-- Hypothetical hash routines where every upstream checksum decodes to
`abc123` and every fetched body also digests to `abc123` (the matching case). -/
def cOk : Crypto :=
  { md5hex := fun _ => "abc123"
    b64decode := fun _ => [0]
    hexlify := fun _ => "abc123" }

/-- Hypothetical hash routines realizing the spec's scenario C: the upstream
checksum decodes to `abc123` but every fetched body digests to `def456`. -/
def cMis : Crypto :=
  { md5hex := fun _ => "def456"
    b64decode := fun _ => [0]
    hexlify := fun _ => "abc123" }

/-- A sink that wants every attachment (`download_img` always true). -/
def hAll : Handler := ⟨fun _ _ => true⟩

/-- A post carrying attachment `500.jpg`. -/
def p500 : Post := ⟨1, some 500, ".jpg", "m"⟩

/-- A detail document with the single post `p500`. -/
def doc500 : ThreadDoc := ⟨[p500]⟩

/-- A 200 detail response carrying `doc500`. -/
def r200 : Response := ⟨200, 5, some doc500⟩

/-- A 404 detail response. -/
def r404 : Response := ⟨404, 0, none⟩

example : handle cOk hAll (initWatcher 42 true 0 60) r200 =
    ({ initWatcher 42 true 0 60 with last_modified := 5, posts_handled := [1] },
     [Ev.post 42 p500, Ev.queryDownload 42 "500.jpg" true,
      Ev.imgFetch 42 "500.jpg" "abc123", Ev.schedulePoll 42 60]) := by
  decide

/-! ### Board poller shape lemmas -/

/-- On a parsable 200 index: compact, spawn exactly `current - previous`,
replace the snapshot, reschedule. -/
theorem handle_threads_200 {s : ChanWatcher} {r : BResponse} {pages : List Page}
    (hc : r.code = 200) (hb : r.body = some pages) :
    handle_threads s r =
      ({ previous_threads := collectThreads pages
         watchers := s.watchers.filter (fun w => w.working) ++
           ((collectThreads pages).filter
             (fun t => decide (t ∉ s.previous_threads))).map (fun t => ⟨t, true⟩) },
       ((collectThreads pages).filter
         (fun t => decide (t ∉ s.previous_threads))).map BEv.spawn ++
         [BEv.rescheduleBoard]) := by
  simp only [handle_threads, hc, hb, reduceIte]

/-! ### Shared concrete traces for witnesses -/

/-- A 200 detail response carrying two attachment-free posts. -/
def rPosts : Response := ⟨200, 5, some ⟨[⟨1, none, "", ""⟩, ⟨2, none, "", ""⟩]⟩⟩

/-- The one-poll trace of a watcher (images disabled) receiving `rPosts`. -/
def trPosts : List (WLabel × List Ev) :=
  [(WLabel.poll rPosts,
    [Ev.post 7 ⟨1, none, "", ""⟩, Ev.post 7 ⟨2, none, "", ""⟩, Ev.schedulePoll 7 60])]

/-- The system state after `trPosts`. -/
def sysPosts : WSys :=
  { w := { initWatcher 7 false 0 60 with last_modified := 5, posts_handled := [1, 2] }
    pendingPoll := 1
    pendingImgs := [] }

theorem reach_trPosts : Reaches cOk hAll (initSys 7 false 0 60) trPosts sysPosts :=
  Reaches.step (Reaches.refl _) (WStep.poll _ rPosts (by decide))

/-- The one-poll trace of a watcher (images disabled) receiving a 404. -/
def trPruned : List (WLabel × List Ev) :=
  [(WLabel.poll r404, [Ev.pruned 42])]

/-- The system state after `trPruned`. -/
def sysPruned : WSys :=
  { w := { initWatcher 42 false 0 60 with working := false }
    pendingPoll := 0
    pendingImgs := [] }

theorem reach_trPruned : Reaches cOk hAll (initSys 42 false 0 60) trPruned sysPruned :=
  Reaches.step (Reaches.refl _) (WStep.poll _ r404 (by decide))

/-! ### Claims -/

/-- Claim C1: over every execution of a tracked item's poller whose parsed
detail documents carry duplicate-free post numbers (the upstream data model),
each post number is passed to the sink's `post` at most once ever, no matter
how often it reappears in later documents; and within one parsed 200 poll the
delivered posts are exactly the document's posts whose numbers are not yet in
the delivered set, in document order — an already-delivered number is never
re-emitted. -/
theorem C1_unique_delivery_and_order {c : Crypto} {h : Handler} {tid : Nat}
    {pull : Bool} {lm iv : Nat} {tr : List (WLabel × List Ev)} {s : WSys}
    (htr : Reaches c h (initSys tid pull lm iv) tr s) (hg : goodPolls tr) :
    (postIds (evsOf tr)).Nodup ∧
    ∀ (w : ThreadWatcher) (doc : ThreadDoc) (r : Response),
      r.code = 200 → r.body = some doc →
      postsDelivered (handle c h w r).2 = filterNew w.posts_handled doc.posts :=
  ⟨(reach_posts htr hg).2, fun _ _ _ hc hb => handle_posts_delivered hc hb⟩

/-- Witness for C1 on the concrete one-poll trace `trPosts`. -/
theorem C1_witness :
    (postIds (evsOf trPosts)).Nodup ∧
    postsDelivered (handle cOk hAll (initWatcher 7 false 0 60) rPosts).2 =
      filterNew (initWatcher 7 false 0 60).posts_handled
        (ThreadDoc.mk [⟨1, none, "", ""⟩, ⟨2, none, "", ""⟩]).posts :=
  ⟨(C1_unique_delivery_and_order reach_trPosts (by decide)).1,
   (C1_unique_delivery_and_order reach_trPosts (by decide)).2
     (initWatcher 7 false 0 60) (ThreadDoc.mk [⟨1, none, "", ""⟩, ⟨2, none, "", ""⟩])
     rPosts rfl rfl⟩

/-- Claim C5: a 404 detail response makes `_handle` call `pruned` exactly once
and clear `working` while scheduling nothing; across any execution at most one
`pruned` is ever delivered, and once it is, the pending-poll pool is empty and
no further poll transition is possible — scheduling for the item has ceased. -/
theorem C5_prune_terminal {c : Crypto} {h : Handler} {tid : Nat} {pull : Bool}
    {lm iv : Nat} {tr : List (WLabel × List Ev)} {s : WSys}
    (htr : Reaches c h (initSys tid pull lm iv) tr s) :
    (∀ (w : ThreadWatcher) (r : Response), r.code = 404 →
      handle c h w r = ({ w with working := false }, [Ev.pruned w.thread_id])) ∧
    prunedCount (evsOf tr) ≤ 1 ∧
    (1 ≤ prunedCount (evsOf tr) →
      s.w.working = false ∧ s.pendingPoll = 0 ∧
      ∀ (r : Response) (evs : List Ev) (s' : WSys),
        ¬ WStep c h s (WLabel.poll r) evs s') := by
  have hcore := reach_core htr
  refine ⟨fun w r h4 => handle_404 h4, ?_, ?_⟩
  · have := hcore.pend
    omega
  · intro h1
    have hpc : prunedCount (evsOf tr) = 1 := by
      have := hcore.pend
      omega
    have hpoll : s.pendingPoll = 0 := by
      have := hcore.pend
      omega
    refine ⟨?_, hpoll, ?_⟩
    · cases hwb : s.w.working
      · rfl
      · exact absurd (hcore.work.mp hwb) (by omega)
    · intro r evs s' hstep
      cases hstep with
      | poll r hp => omega

/-- Witness for C5 on the concrete 404 trace `trPruned`. -/
theorem C5_witness :
    handle cOk hAll (initWatcher 42 false 0 60) r404 =
      ({ initWatcher 42 false 0 60 with working := false }, [Ev.pruned 42]) ∧
    prunedCount (evsOf trPruned) ≤ 1 ∧
    sysPruned.w.working = false ∧ sysPruned.pendingPoll = 0 :=
  ⟨(C5_prune_terminal reach_trPruned).1 (initWatcher 42 false 0 60) r404 rfl,
   (C5_prune_terminal reach_trPruned).2.1,
   ((C5_prune_terminal reach_trPruned).2.2 (by decide)).1,
   ((C5_prune_terminal reach_trPruned).2.2 (by decide)).2.1⟩

/-- Claim C8: a board cycle whose index response is non-200 or unparsable
leaves the previously-seen ID set untouched, spawns nothing (the watcher list
is only compacted to its live members, as every cycle does first), and still
reschedules the next board poll. -/
theorem C8_board_error_noop {s : ChanWatcher} {r : BResponse}
    (herr : r.code ≠ 200 ∨ r.body = none) :
    (handle_threads s r).1.previous_threads = s.previous_threads ∧
    (handle_threads s r).1.watchers = s.watchers.filter (fun w => w.working) ∧
    (handle_threads s r).2 = [BEv.rescheduleBoard] := by
  by_cases hc : r.code = 200
  · have hb : r.body = none := by
      rcases herr with hcc | hb
      · exact absurd hc hcc
      · exact hb
    simp only [handle_threads, hc, hb, reduceIte]
    refine ⟨?_, ?_, ?_⟩ <;> trivial
  · simp only [handle_threads, if_neg hc]
    refine ⟨?_, ?_, ?_⟩ <;> trivial

/-- Witness for C8: a 500 index response. -/
theorem C8_witness :
    (handle_threads ⟨[3], [⟨3, true⟩]⟩ ⟨500, none⟩).1.previous_threads = [3] ∧
    (handle_threads ⟨[3], [⟨3, true⟩]⟩ ⟨500, none⟩).1.watchers =
      [⟨3, true⟩].filter (fun w => w.working) ∧
    (handle_threads ⟨[3], [⟨3, true⟩]⟩ ⟨500, none⟩).2 = [BEv.rescheduleBoard] :=
  C8_board_error_noop (Or.inl (by decide))

/-- Claim C9: a post's number enters `_posts_handled` only after the sink's
`post` call for it returns.  If the sink raises at post `p` (after accepting
the posts of `pre`), the loop aborts at `p`: every number of `pre` is
recorded, and — when the document's numbers are duplicate-free — `p`'s number
is not recorded. -/
theorem C9_post_exception_not_recorded {c : Crypto} {hx : ExcHandler}
    {w : ThreadWatcher} {doc : ThreadDoc} {pre suf : List Post} {p : Post}
    (hnd : (doc.posts.map Post.no).Nodup)
    (hsplit : filterNew w.posts_handled doc.posts = pre ++ p :: suf)
    (hpre : ∀ q ∈ pre, hx.post w.thread_id q = true)
    (hp : hx.post w.thread_id p = false) :
    (deliverPosts c hx w (filterNew w.posts_handled doc.posts)).2.2 = some p ∧
    (∀ q ∈ pre, q.no ∈
      (deliverPosts c hx w (filterNew w.posts_handled doc.posts)).1.posts_handled) ∧
    p.no ∉ (deliverPosts c hx w (filterNew w.posts_handled doc.posts)).1.posts_handled := by
  rw [hsplit]
  obtain ⟨habort, hhandled⟩ := deliverPosts_abort (c := c) hpre hp
  refine ⟨habort, ?_, ?_⟩
  · intro q hq
    rw [hhandled, mem_foldl_setAdd]
    exact Or.inr (List.mem_map.mpr ⟨q, hq, rfl⟩)
  · rw [hhandled, mem_foldl_setAdd]
    rintro (hmem | hmem)
    · have hpmem : p ∈ filterNew w.posts_handled doc.posts := by
        rw [hsplit]
        exact List.mem_append_right _ (List.mem_cons_self p suf)
      exact (mem_filterNew hpmem).2 hmem
    · have hfnd : ((filterNew w.posts_handled doc.posts).map Post.no).Nodup :=
        filterNew_ids_nodup hnd
      rw [hsplit, List.map_append] at hfnd
      have hdisj := List.disjoint_of_nodup_append hfnd
      exact hdisj hmem (by
        rw [List.map_cons]
        exact List.mem_cons_self p.no _)

/-- Witness for C9: the sink accepts post 1 and raises at post 2. -/
theorem C9_witness :
    (deliverPosts cOk ⟨fun _ q => q.no == 1, fun _ _ => true⟩
      (initWatcher 7 false 0 60)
      (filterNew (initWatcher 7 false 0 60).posts_handled
        (ThreadDoc.mk [⟨1, none, "", ""⟩, ⟨2, none, "", ""⟩]).posts)).2.2 =
      some ⟨2, none, "", ""⟩ ∧
    (∀ q ∈ [(⟨1, none, "", ""⟩ : Post)], q.no ∈
      (deliverPosts cOk ⟨fun _ q => q.no == 1, fun _ _ => true⟩
        (initWatcher 7 false 0 60)
        (filterNew (initWatcher 7 false 0 60).posts_handled
          (ThreadDoc.mk [⟨1, none, "", ""⟩, ⟨2, none, "", ""⟩]).posts)).1.posts_handled) ∧
    (⟨2, none, "", ""⟩ : Post).no ∉
      (deliverPosts cOk ⟨fun _ q => q.no == 1, fun _ _ => true⟩
        (initWatcher 7 false 0 60)
        (filterNew (initWatcher 7 false 0 60).posts_handled
          (ThreadDoc.mk [⟨1, none, "", ""⟩, ⟨2, none, "", ""⟩]).posts)).1.posts_handled :=
  @C9_post_exception_not_recorded cOk ⟨fun _ q => q.no == 1, fun _ _ => true⟩
    (initWatcher 7 false 0 60)
    (ThreadDoc.mk [⟨1, none, "", ""⟩, ⟨2, none, "", ""⟩])
    [⟨1, none, "", ""⟩] [] ⟨2, none, "", ""⟩
    (by decide) (by decide) (by decide) (by decide)

/-- Claim C10: with attachment fetching disabled at construction, no execution
ever places an image fetch, and every sink interaction is a `post`, `pruned`
or reschedule — `download_img` and `img` are never invoked. -/
theorem C10_no_images_when_disabled {c : Crypto} {h : Handler} {tid : Nat}
    {lm iv : Nat} {tr : List (WLabel × List Ev)} {s : WSys}
    (htr : Reaches c h (initSys tid false lm iv) tr s) :
    s.pendingImgs = [] ∧
    ∀ e ∈ evsOf tr, isPost e = true ∨ isPruned e = true ∨ isSched e = true :=
  reach_noImgs htr

/-- Witness for C10 on the concrete one-poll trace `trPosts`. -/
theorem C10_witness :
    sysPosts.pendingImgs = [] ∧
    (isPost (Ev.post 7 ⟨1, none, "", ""⟩) = true ∨
      isPruned (Ev.post 7 ⟨1, none, "", ""⟩) = true ∨
      isSched (Ev.post 7 ⟨1, none, "", ""⟩) = true) :=
  ⟨(C10_no_images_when_disabled reach_trPosts).1,
   (C10_no_images_when_disabled reach_trPosts).2 _ (by decide)⟩

/-- Counterexample to claim C4 as stated: a 200 response whose body raises
`ValueError` does mutate the last-modified marker — `_handle` stores the
`Last-Modified` header before attempting to parse, so the marker moves from 0
to 7 even though nothing was delivered. -/
theorem C4_counterexample :
    (handle cOk hAll (initWatcher 42 false 0 60) ⟨200, 7, none⟩).1.last_modified = 7 ∧
    (initWatcher 42 false 0 60).last_modified = 0 ∧
    (handle cOk hAll (initWatcher 42 false 0 60) ⟨200, 7, none⟩).2 =
      [Ev.schedulePoll 42 60] := by
  decide

/-- Claim C4 (amended): an error response (non-200, non-404) mutates no
watcher state at all and reschedules identically to an unchanged-document
response at the same cadence with no error surfaced; a malformed (unparsable)
200 body leaves the delivered set untouched and causes the identical
reschedule, but it does update the last-modified marker from the response
header, which is stored before the parse attempt. -/
theorem C4_error_frame (c : Crypto) (h : Handler) :
    (∀ (w : ThreadWatcher) (r : Response), r.code ≠ 200 → r.code ≠ 404 →
      handle c h w r = (w, [Ev.schedulePoll w.thread_id w.sampling_interval])) ∧
    (∀ (w : ThreadWatcher) (r : Response), r.code = 200 → r.body = none →
      handle c h w r = ({ w with last_modified := r.lastModified },
        [Ev.schedulePoll w.thread_id w.sampling_interval])) :=
  ⟨fun _ _ hc h4 => handle_other hc h4, fun _ _ hc hb => handle_200_malformed hc hb⟩

/-- Witness for the amended C4: a 500 response and a malformed 200 response. -/
theorem C4_witness :
    handle cOk hAll (initWatcher 42 false 0 60) ⟨500, 7, none⟩ =
      (initWatcher 42 false 0 60, [Ev.schedulePoll 42 60]) ∧
    handle cOk hAll (initWatcher 42 false 0 60) ⟨200, 7, none⟩ =
      ({ initWatcher 42 false 0 60 with last_modified := 7 },
       [Ev.schedulePoll 42 60]) :=
  ⟨(C4_error_frame cOk hAll).1 (initWatcher 42 false 0 60) ⟨500, 7, none⟩
      (by decide) (by decide),
   (C4_error_frame cOk hAll).2 (initWatcher 42 false 0 60) ⟨200, 7, none⟩ rfl rfl⟩

/-- Counterexample to claim C2 as stated: the board poller diffs only against
the previous snapshot and never consults the live poller collection.  With
index snapshots listing thread 5, then nothing, then thread 5 again — while
the first poller never saw a 404 and is still `working` — a second live
poller for thread 5 is spawned, so the population holds two live pollers for
one ID. -/
theorem C2_counterexample :
    ((handle_threads
        ((handle_threads
          ((handle_threads initChan ⟨200, some [⟨[⟨5⟩]⟩]⟩).1)
          ⟨200, some [⟨[]⟩]⟩).1)
        ⟨200, some [⟨[⟨5⟩]⟩]⟩).1).watchers =
      [⟨5, true⟩, ⟨5, true⟩] := by
  decide

/-- Claim C2 (amended): a new Thread Poller is spawned exactly for each ID in
the current snapshot that is absent from the previous snapshot; hence an ID
listed in consecutive snapshots never gets a duplicate poller, but the live
poller collection itself is not consulted, so an ID that leaves the index and
reappears later is spawned again even while its first poller is live. -/
theorem C2_spawn_only_new {s : ChanWatcher} {r : BResponse} {pages : List Page}
    (hc : r.code = 200) (hb : r.body = some pages) :
    (handle_threads s r).2 =
      ((collectThreads pages).filter
        (fun t => decide (t ∉ s.previous_threads))).map BEv.spawn ++
        [BEv.rescheduleBoard] ∧
    ∀ t ∈ s.previous_threads, BEv.spawn t ∉ (handle_threads s r).2 := by
  rw [handle_threads_200 hc hb]
  refine ⟨rfl, ?_⟩
  intro t ht hmem
  rcases List.mem_append.mp hmem with h1 | h2
  · rcases List.mem_map.mp h1 with ⟨u, hu, huev⟩
    have : u = t := by injection huev
    subst this
    exact of_decide_eq_true (List.mem_filter.mp hu).2 ht
  · simp at h2

/-- Witness for the amended C2: snapshots go from seeing threads 1,2,3 to
seeing 2,3,4 — exactly thread 4 is spawned, 2 and 3 are not re-spawned. -/
theorem C2_witness :
    (handle_threads ⟨[1, 2, 3], [⟨1, true⟩, ⟨2, true⟩, ⟨3, true⟩]⟩
        ⟨200, some [⟨[⟨2⟩, ⟨3⟩, ⟨4⟩]⟩]⟩).2 =
      ((collectThreads [⟨[⟨2⟩, ⟨3⟩, ⟨4⟩]⟩]).filter
        (fun t => decide (t ∉ ([1, 2, 3] : List Nat)))).map BEv.spawn ++
        [BEv.rescheduleBoard] ∧
    BEv.spawn 2 ∉ (handle_threads ⟨[1, 2, 3], [⟨1, true⟩, ⟨2, true⟩, ⟨3, true⟩]⟩
        ⟨200, some [⟨[⟨2⟩, ⟨3⟩, ⟨4⟩]⟩]⟩).2 :=
  ⟨(C2_spawn_only_new rfl rfl).1,
   (C2_spawn_only_new rfl rfl).2 2 (by decide)⟩

/-- Counterexample to claim C3 as stated: after a checksum-mismatched fetch of
`500.jpg` (bytes digest `def456`, expected `abc123`), a later poll of the same
item with `download_img` still answering true issues no retry — the fetch is
only ever attempted while handling the referencing post, which is already in
the delivered set, so the second poll emits only the reschedule. -/
theorem C3_counterexample :
    fetchesOf (handle cMis hAll (initWatcher 42 true 0 60) r200).2 =
      [("500.jpg", "abc123")] ∧
    check_image cMis (handle cMis hAll (initWatcher 42 true 0 60) r200).1
      "500.jpg" "abc123" ⟨200, [9]⟩ = [] ∧
    (handle cMis hAll (handle cMis hAll (initWatcher 42 true 0 60) r200).1 r200).2 =
      [Ev.schedulePoll 42 60] ∧
    hAll.download_img 42 "500.jpg" = true := by
  decide

/-- Claim C3 (amended): a transport-failed or digest-mismatched attachment
fetch delivers nothing (`img` is never called with the mismatched bytes) and
no filename is ever marked fetched (`downloaded_pictures` is never written);
but the fetch is not retried on later polls: once every post of the document
is in the delivered set, a poll issues no attachment fetch and no
`download_img` query at all, regardless of what `download_img` would answer. -/
theorem C3_mismatch_discard_no_retry (c : Crypto) (h : Handler) :
    (∀ (w : ThreadWatcher) (fn ck : String) (r : ImgResponse),
      c.md5hex r.body ≠ ck → check_image c w fn ck r = []) ∧
    (∀ (w : ThreadWatcher) (fn ck : String) (r : ImgResponse),
      r.code ≠ 200 → check_image c w fn ck r = []) ∧
    (∀ (w : ThreadWatcher) (r : Response),
      (handle c h w r).1.downloaded_pictures = w.downloaded_pictures) ∧
    (∀ (w : ThreadWatcher) (doc : ThreadDoc) (r : Response),
      r.code = 200 → r.body = some doc →
      (∀ p ∈ doc.posts, p.no ∈ w.posts_handled) →
      (handle c h w r).2 = [Ev.schedulePoll w.thread_id w.sampling_interval]) := by
  refine ⟨fun _ _ _ _ hdg => check_image_mismatch hdg,
    fun _ _ _ _ hc => check_image_error hc,
    fun w r => (handle_const c h w r).2.2.2,
    fun w doc r hc hb hall => ?_⟩
  rw [handle_200_parsed hc hb]
  have hflt : filterNew w.posts_handled doc.posts = [] := by
    refine List.filter_eq_nil_iff.mpr (fun p hp => ?_)
    simp [hall p hp]
  have : (parse_thread c h { w with last_modified := r.lastModified } doc).2 = [] := by
    show (deliverLoop c h _ (filterNew w.posts_handled doc.posts)).2 = []
    rw [hflt]
    rfl
  rw [this]
  rfl

/-- Witness for the amended C3 at the scenario-C instances. -/
theorem C3_witness :
    check_image cMis (initWatcher 42 true 0 60) "500.jpg" "abc123" ⟨200, [9]⟩ = [] ∧
    check_image cMis (initWatcher 42 true 0 60) "500.jpg" "abc123" ⟨503, [9]⟩ = [] ∧
    (handle cMis hAll (initWatcher 42 true 0 60) r200).1.downloaded_pictures =
      (initWatcher 42 true 0 60).downloaded_pictures ∧
    (handle cMis hAll { initWatcher 42 true 0 60 with posts_handled := [1] }
      r200).2 = [Ev.schedulePoll 42 60] :=
  ⟨(C3_mismatch_discard_no_retry cMis hAll).1 (initWatcher 42 true 0 60)
      "500.jpg" "abc123" ⟨200, [9]⟩ (by decide),
   (C3_mismatch_discard_no_retry cMis hAll).2.1 (initWatcher 42 true 0 60)
      "500.jpg" "abc123" ⟨503, [9]⟩ (by decide),
   (C3_mismatch_discard_no_retry cMis hAll).2.2.1 (initWatcher 42 true 0 60) r200,
   (C3_mismatch_discard_no_retry cMis hAll).2.2.2
      { initWatcher 42 true 0 60 with posts_handled := [1] } doc500 r200
      rfl rfl (by decide)⟩

/-- Counterexample to claim C6 as stated: an image fetch issued before the
item's 404 is still resolved afterwards — `check_image` carries no guard on
the stopped state — so an `img` delivery for the item reaches the sink after
its `pruned` call (event 4 is `pruned 42`, event 5 the later `img`). -/
theorem C6_counterexample :
    ∃ (tr : List (WLabel × List Ev)) (s : WSys),
      Reaches cOk hAll (initSys 42 true 0 60) tr s ∧
      (evsOf tr).get? 4 = some (Ev.pruned 42) ∧
      (evsOf tr).get? 5 = some (Ev.img 42 "500.jpg" [7]) := by
  refine ⟨_, _,
    Reaches.step (Reaches.step (Reaches.step (Reaches.refl _)
      (WStep.poll _ r200 (by decide)))
      (WStep.poll _ r404 (by decide)))
      (WStep.imgResp _ "500.jpg" "abc123" ⟨200, [7]⟩ (by decide)),
    ?_, ?_⟩ <;> rfl

/-- Claim C6 (amended): per watcher, `pruned` is delivered at most once and no
`post` for the item ever follows its `pruned`; however an `img` delivery from
a still-in-flight attachment fetch can reach the sink after `pruned` — the
image-response closure is not guarded by the terminal state. -/
theorem C6_pruned_once_no_post_after {c : Crypto} {h : Handler} {tid : Nat}
    {pull : Bool} {lm iv : Nat} {tr : List (WLabel × List Ev)} {s : WSys}
    (htr : Reaches c h (initSys tid pull lm iv) tr s) :
    prunedCount (evsOf tr) ≤ 1 ∧ noPostAfterPruned (evsOf tr) = true :=
  ⟨by have := (reach_core htr).pend; omega, reach_noPost htr⟩

/-- Witness for the amended C6 on the concrete 404 trace `trPruned`. -/
theorem C6_witness :
    prunedCount (evsOf trPruned) ≤ 1 ∧ noPostAfterPruned (evsOf trPruned) = true :=
  C6_pruned_once_no_post_after reach_trPruned

/-- A detail document with two distinct posts referencing the same attachment
filename `500.jpg`. -/
def doc2 : ThreadDoc := ⟨[⟨1, some 500, ".jpg", "m"⟩, ⟨2, some 500, ".jpg", "m"⟩]⟩

/-- A 200 detail response carrying `doc2`. -/
def r2 : Response := ⟨200, 5, some doc2⟩

/-- Number of `img` deliveries for one (item, filename) pair in an event list. -/
def countImgFor (tid : Nat) (fn : String) (l : List Ev) : Nat :=
  (l.filter fun e => match e with
    | Ev.img t f _ => t == tid && f == fn
    | _ => false).length

/-- Counterexample to claim C7 as stated: `_downloaded_pictures` is never
written, so when two posts reference the same filename with matching
checksums, both fetches are issued and `img` fires twice for the same
(item, filename) pair. -/
theorem C7_counterexample :
    ∃ (tr : List (WLabel × List Ev)) (s : WSys),
      Reaches cOk hAll (initSys 42 true 0 60) tr s ∧
      countImgFor 42 "500.jpg" (evsOf tr) = 2 := by
  refine ⟨_, _,
    Reaches.step (Reaches.step (Reaches.step (Reaches.refl _)
      (WStep.poll _ r2 (by decide)))
      (WStep.imgResp _ "500.jpg" "abc123" ⟨200, [7]⟩ (by decide)))
      (WStep.imgResp _ "500.jpg" "abc123" ⟨200, [8]⟩ (by decide)),
    ?_⟩
  rfl

/-- Claim C7 (amended): every `img` delivery of an execution is for this
watcher's item and stems from a previously delivered post referencing that
filename, with the fetched bytes' md5 hex digest equal to the post's
base64-encoded `md5` field decoded to hex; the at-most-once-per-(item,
filename) part of the claim does not hold (see the counterexample), since the
downloaded-pictures set is never updated. -/
theorem C7_img_checksum_provenance {c : Crypto} {h : Handler} {tid : Nat}
    {pull : Bool} {lm iv : Nat} {tr : List (WLabel × List Ev)} {s : WSys}
    (htr : Reaches c h (initSys tid pull lm iv) tr s) :
    ∀ (tid' : Nat) (fn : String) (data : Bytes),
      Ev.img tid' fn data ∈ evsOf tr → tid' = tid ∧
      ∃ p t, Ev.post tid p ∈ evsOf tr ∧ p.tim = some t ∧
        fn = toString t ++ p.ext ∧
        c.md5hex data = c.hexlify (c.b64decode p.md5) :=
  (reach_imgProv htr).dones

/-- The one-poll-one-image trace used to witness the amended C7. -/
def trImg : List (WLabel × List Ev) :=
  [(WLabel.poll r200,
    [Ev.post 42 p500, Ev.queryDownload 42 "500.jpg" true,
     Ev.imgFetch 42 "500.jpg" "abc123", Ev.schedulePoll 42 60]),
   (WLabel.imgResp "500.jpg" "abc123" ⟨200, [7]⟩, [Ev.img 42 "500.jpg" [7]])]

/-- The system state after `trImg`. -/
def sysImg : WSys :=
  { w := { initWatcher 42 true 0 60 with last_modified := 5, posts_handled := [1] }
    pendingPoll := 1
    pendingImgs := [] }

theorem reach_trImg : Reaches cOk hAll (initSys 42 true 0 60) trImg sysImg :=
  Reaches.step (Reaches.step (Reaches.refl _) (WStep.poll _ r200 (by decide)))
    (WStep.imgResp _ "500.jpg" "abc123" ⟨200, [7]⟩ (by decide))

/-- Witness for the amended C7 at the delivered image of `trImg`. -/
theorem C7_witness :
    42 = 42 ∧ ∃ p t, Ev.post 42 p ∈ evsOf trImg ∧ p.tim = some t ∧
      "500.jpg" = toString t ++ p.ext ∧
      cOk.md5hex [7] = cOk.hexlify (cOk.b64decode p.md5) :=
  C7_img_checksum_provenance reach_trImg 42 "500.jpg" [7] (by decide)
